import Mathlib

/-!
Verification of the sanity-io/client-go HTTP client library against its
natural-language specification.

The Go sources are shallowly embedded below:

* `internal/requests/requests.go` — the request builder (`Request`,
  `AppendPath`, `Param`, `EncodeURL`, ...), including a byte-faithful model
  of Go's `net/url` query escaping and path escaping for the characters the
  client produces.
* `utils.go` — `isStatusCodeRetriable` / `isMethodRetriable`.
* `Client.do` (the versioned client) — the retry loop, embedded as an
  executable trace semantics producing the list of observable events
  (sends, retry callbacks, backoff sleeps) along with the outcome.
* `query.go` — the query builder with the GET/POST URL-length switch, and
  the reflection-based `QueryResult.Unmarshal`, for which a small model of
  Go memory and the `reflect` operations the code performs is given.
* `get_documents.go` — the get-documents builder.
* The mutation builder (`Mutate`, `MutationBuilder.Do`) and the JSON
  marshaling of `api.MutateRequest`, including Go's encoding of nil slices
  as JSON `null`.
* `auth.go` — webhook signature verification, with full executable
  implementations of SHA-256, HMAC-SHA256 and unpadded base64url encoding
  as used by `generateHS256Signature`, and a deterministic matcher that is
  equivalent to the anchored regular expression
  `^t=(\d+)[, ]+v1=([^, ]+)$` used by `decodeSignatureHeader`.

Machine integers are modelled as `Nat` reduced modulo `2 ^ 32` (SHA-256
words) with Go's 64-bit `int` bound made explicit where `strconv.Atoi`
overflow matters. Strings are Lean `String`s; where Go measures bytes
(`len` of a string, percent-encoding) the embedding goes through an
explicit UTF-8 byte encoding.
-/

/-- Concatenation of two strings, written so that its character list is
definitionally the concatenation of the character lists. Semantically this
is exactly `String.append`; having `(strCat a b).data = a.data ++ b.data`
hold by `rfl` keeps the reasoning at the level of character lists. -/
def strCat (a b : String) : String := ⟨a.data ++ b.data⟩

/-- Go `len` of a string counts bytes, not runes. -/
def utf8EncodeChar (c : Char) : List Nat :=
  let n := c.toNat
  if n < 128 then [n]
  else if n < 2048 then [192 + n / 64, 128 + n % 64]
  else if n < 65536 then [224 + n / 4096, 128 + (n / 64) % 64, 128 + n % 64]
  else [240 + n / 262144, 128 + (n / 4096) % 64, 128 + (n / 64) % 64, 128 + n % 64]

/-- UTF-8 byte encoding of a string (the bytes Go's `[]byte(s)` yields). -/
def utf8Encode (s : String) : List Nat := (s.data.map utf8EncodeChar).flatten

/-- Go `len(s)` for a string: the number of UTF-8 bytes. -/
def goLen (s : String) : Nat := (utf8Encode s).length

/-- Uppercase hexadecimal digit, as produced by Go's percent-encoding. -/
def hexDigitUpper (n : Nat) : Char := "0123456789ABCDEF".data.getD n '0'

/-- Percent-encoding of one byte, `%XX` with uppercase hex. -/
def percentByte (b : Nat) : List Char := ['%', hexDigitUpper (b / 16), hexDigitUpper (b % 16)]

/-- Bytes never escaped by Go's `net/url`: ASCII alphanumerics and `-_.~`. -/
def isUnreservedByte (b : Nat) : Bool :=
  (65 ≤ b && b ≤ 90) || (97 ≤ b && b ≤ 122) || (48 ≤ b && b ≤ 57) ||
  b == 45 || b == 95 || b == 46 || b == 126

/-- Go `url.QueryEscape`: keep unreserved bytes, encode space as `+`,
percent-encode every other byte. -/
def queryEscape (s : String) : String :=
  ⟨((utf8Encode s).map fun b =>
      if isUnreservedByte b then [Char.ofNat b]
      else if b == 32 then ['+']
      else percentByte b).flatten⟩

/-- Bytes kept verbatim in a URL path by Go's `url.URL.String` (mode
`encodePath` of `net/url.shouldEscape`): unreserved bytes plus
`$ & + , / : ; = @`. -/
def isPathSafeByte (b : Nat) : Bool :=
  isUnreservedByte b || b == 36 || b == 38 || b == 43 || b == 44 ||
  b == 47 || b == 58 || b == 59 || b == 61 || b == 64

/-- Go's escaping of a URL path as performed by `url.URL.String` via
`EscapedPath` (the client never sets `RawPath`). -/
def escapePath (s : String) : String :=
  ⟨((utf8Encode s).map fun b =>
      if isPathSafeByte b then [Char.ofNat b] else percentByte b).flatten⟩

/-- Byte-lexicographic comparison used by Go's `sort.Strings` inside
`url.Values.Encode` (on valid UTF-8, codepoint order equals byte order). -/
def charListLe : List Char → List Char → Bool
  | [], _ => true
  | _ :: _, [] => false
  | a :: as, b :: bs =>
    if a = b then charListLe as bs else decide (a.toNat ≤ b.toNat)

def strLe (a b : String) : Bool := charListLe a.data b.data

/-- Insertion into a list sorted by `strLe`. -/
def insertSortedStr (s : String) : List String → List String
  | [] => [s]
  | t :: ts => if strLe s t then s :: t :: ts else t :: insertSortedStr s ts

/-- Sorting a list of strings, modelling `sort.Strings`. -/
def sortStrings (l : List String) : List String := l.foldr insertSortedStr []

/-- First occurrences of each key, in insertion order. -/
def dedupKeys : List String → List String
  | [] => []
  | k :: ks => k :: (dedupKeys ks).filter (fun k2 => k2 ≠ k)

/-- Go `url.Values.Encode`: sort the keys, then emit
`escape(k)=escape(v)` pairs joined by `&`, values of one key kept in
insertion order. The builder's `url.Values` is modelled as an
insertion-ordered list of key/value pairs. -/
def encodeValues (params : List (String × String)) : String :=
  let keys := sortStrings (dedupKeys (params.map Prod.fst))
  let pieces := keys.map (fun k =>
    ((params.filter (fun p => p.1 = k)).map
      (fun p => strCat (queryEscape k) (strCat "=" (queryEscape p.2)))))
  ⟨((pieces.flatten.map String.data).intersperse ['&']).flatten⟩

/-- Minimal JSON value type for the request bodies the client marshals.
`raw` is a `json.RawMessage` passed through verbatim. -/
inductive Json where
  | null : Json
  | jbool : Bool → Json
  | jstr : String → Json
  | jarr : List Json → Json
  | jobj : List (String × Json) → Json
  | raw : String → Json
  deriving Repr

/-- Go `url.URL` restricted to the fields the client uses (scheme, host,
path); the clients construct base URLs with empty user, query and
fragment parts. -/
structure GoURL where
  scheme : String
  host : String
  path : String
  deriving Repr, DecidableEq

/-- Parameter values accepted by `Request.Param` (requests.go:87-107): a
string, a `fmt.Stringer` (already rendered) or a bool. Any other type
panics in Go and is not representable here. -/
inductive PVal where
  | ps : String → PVal
  | pstringer : String → PVal
  | pb : Bool → PVal
  deriving Repr, DecidableEq

/-- Rendering of a parameter value as added to `url.Values`
(requests.go:92-105): strings verbatim, `Stringer.String()`, bools as the
literals `true` / `false`. -/
def pvalRender : PVal → String
  | .ps v => v
  | .pstringer v => v
  | .pb true => "true"
  | .pb false => "false"

/-- The request builder `requests.Request` (requests.go:12-21). The body
is the JSON value passed to `MarshalBody` (the claims only marshal values
whose encoding cannot fail, so the stored value is already JSON);
`rerr` is the builder's deferred error field. -/
structure Request where
  baseURL : GoURL
  path : String
  method : String
  params : List (String × String)
  body : Option Json
  headers : List (String × String)
  rerr : Option String
  deriving Repr

/-- `requests.New` (requests.go:23-31): method defaults to GET, headers
start with `Accept: application/json`. -/
def requestsNew (baseURL : GoURL) : Request :=
  { baseURL := baseURL, path := "", method := "GET", params := [],
    body := none, headers := [("Accept", "application/json")], rerr := none }

/-- One step of `Request.AppendPath` (requests.go:68-77), at the level of
character lists. The separator is inserted exactly when
`(b.path == "" || b.path[len(b.path)-1] != '/') && (len(elem) > 0 && elem[0] != '/')`;
`path == "" || last != '/'` is `getLast? ≠ some '/'` and
`len(elem) > 0 && elem[0] != '/'` is `head? ≠ none ∧ head? ≠ some '/'`. -/
def appendPathStepL (path elem : List Char) : List Char :=
  (if path.getLast? ≠ some '/' ∧ elem.head? ≠ none ∧ elem.head? ≠ some '/'
   then path ++ ['/'] else path) ++ elem

def appendPathStep (path elem : String) : String :=
  ⟨appendPathStepL path.data elem.data⟩

/-- The loop of `Request.AppendPath` over the segment list, starting from
the builder's current path. -/
def appendPathFold (path : String) (elems : List String) : String :=
  elems.foldl appendPathStep path

def Request.appendPath (r : Request) (elems : List String) : Request :=
  { r with path := appendPathFold r.path elems }

def Request.withMethod (r : Request) (m : String) : Request :=
  { r with method := m }

/-- `Request.Param` (requests.go:87-107): `url.Values.Add` appends the
rendered value under the name. -/
def Request.param (r : Request) (name : String) (v : PVal) : Request :=
  { r with params := r.params ++ [(name, pvalRender v)] }

/-- `Request.Header` (requests.go:79-85). Go canonicalizes MIME header
keys and appends; key canonicalization is irrelevant to every claim and
is not modelled. -/
def Request.header (r : Request) (name val : String) : Request :=
  { r with headers := r.headers ++ [(name, val)] }

/-- `Request.MarshalBody` (requests.go:133-142) for values whose JSON
encoding succeeds (all bodies built by the claims are maps of
already-valid raw JSON, which cannot fail to encode). -/
def Request.marshalBody (r : Request) (v : Json) : Request :=
  { r with body := some v }

/-- `Request.EncodeURL` (requests.go:49-56): copy the base URL, append the
builder path to the URL path, attach the encoded query values, and render
with `url.URL.String`. The rendering covers the URL shapes the client
builds (scheme/host/path/query; no user, opaque or fragment parts). A `?`
is emitted exactly when the encoded query is nonempty, matching
`url.URL.String` for values-only queries. -/
def Request.encodeURL (r : Request) : String :=
  let q := encodeValues r.params
  strCat
    (strCat
      (strCat (if r.baseURL.scheme = "" then "" else strCat r.baseURL.scheme ":")
        (if r.baseURL.host = "" then "" else strCat "//" r.baseURL.host))
      (escapePath (strCat r.baseURL.path r.path)))
    (if q = "" then "" else strCat "?" q)

/-- `isStatusCodeRetriable` (utils.go:9-16): 503 ServiceUnavailable,
504 GatewayTimeout, 408 RequestTimeout. -/
def isStatusCodeRetriable (code : Nat) : Bool :=
  code == 503 || code == 504 || code == 408

/-- `isMethodRetriable` (utils.go:18-25). -/
def isMethodRetriable (method : String) : Bool :=
  method == "GET" || method == "HEAD" || method == "DELETE" || method == "OPTIONS"

/-- Outcome of one response inside `Client.do` (client.go:209-224):
2xx is decoded and returned; otherwise, if the method or the status code
is not retriable, a `*RequestError` is returned; otherwise the loop
retries. -/
inductive Decision where
  | success : Decision
  | requestError : Decision
  | retry : Decision
  deriving Repr, DecidableEq

/-- The branch structure of `Client.do` on a received response:
`if resp.StatusCode >= 200 && resp.StatusCode <= 299 { return ... }`,
then `if !isMethodRetriable(req.Method) || !isStatusCodeRetriable(resp.StatusCode)
{ return nil, c.handleErrorResponse(req, resp) }`, else retry. -/
def doDecision (method : String) (status : Nat) : Decision :=
  if 200 ≤ status ∧ status ≤ 299 then .success
  else if ¬ isMethodRetriable method ∨ ¬ isStatusCodeRetriable status then .requestError
  else .retry

/-- Observable events of the retry loop: an HTTP round trip for attempt
`i`, an `OnErrorWillRetry` callback invocation carrying the Go `err`
value in scope at the call site, and a backoff sleep. -/
inductive DoEvent where
  | send : Nat → DoEvent
  | callbackRetry : Option String → DoEvent
  | sleepBackoff : DoEvent
  deriving Repr, DecidableEq

/-- Result of `Client.do`: transport error (for example a canceled
request context), 2xx decoded, `*RequestError`, or still looping when the
observation fuel runs out (the Go loop has no attempt cap). -/
inductive DoResult where
  | transportError : DoResult
  | ok : Nat → DoResult
  | requestError : Nat → DoResult
  | stillLooping : DoResult
  deriving Repr, DecidableEq

/-- Model of `c.hc.Do(req)` where `req` carries the caller's context
(client.go:198-203): Go's transport fails the round trip once the context
is canceled, otherwise the response for attempt `i` arrives. `cancelAt`
is the global step index from which the context is canceled; `step` is
the current global step. Returns the `(resp, err)` pair. -/
def hcDo (cancelAt step status : Nat) : Option Nat × Option String :=
  if cancelAt ≤ step then (none, some "context canceled") else (some status, none)

/-- Trace semantics of the retry loop of `Client.do` (client.go:190-225),
parameterized by the method of the built request, the status answered to
attempt `i`, the cancellation step, and whether `callbacks.OnErrorWillRetry`
is registered. Each iteration: build and send the request (the context is
consulted by the transport); on error return; on 2xx decode and return; on
a non-retriable method/status pair return a `*RequestError`; otherwise
invoke the callback with the in-scope `err`, sleep the backoff duration
(the code does not consult the context here), and loop. `fuel` bounds the
observation, `i` numbers the attempt, `step` is the global event clock. -/
def clientDo (method : String) (statuses : Nat → Nat) (cancelAt : Nat) (cbReg : Bool) :
    Nat → Nat → Nat → List DoEvent × DoResult
  | 0, _, _ => ([], .stillLooping)
  | fuel + 1, i, step =>
    let r := hcDo cancelAt step (statuses i)
    match r.1, r.2 with
    | _, some _ => ([.send i], .transportError)
    | none, none => ([.send i], .transportError)
    | some st, none =>
      match doDecision method st with
      | .success => ([.send i], .ok st)
      | .requestError => ([.send i], .requestError st)
      | .retry =>
        let cbEvents := if cbReg then [DoEvent.callbackRetry r.2] else []
        let stepCost := if cbReg then 3 else 2
        let rest := clientDo method statuses cancelAt cbReg fuel (i + 1) (step + stepCost)
        (DoEvent.send i :: cbEvents ++ DoEvent.sleepBackoff :: rest.1, rest.2)

/-- The arguments passed to `OnErrorWillRetry` along a trace. -/
def callbackArgs (evs : List DoEvent) : List (Option String) :=
  evs.filterMap fun ev =>
    match ev with
    | .callbackRetry e => some e
    | _ => none

/-- Client configuration, the fields of `Client` that the builders read
(base URL, dataset, token). -/
structure ClientCfg where
  baseURL : GoURL
  dataset : String
  token : String
  deriving Repr

/-- `Client.newRequest` of the unversioned client: `requests.New` plus an
added `accept` header and, when a token is set, an `authorization`
header. -/
def clientNewRequest (c : ClientCfg) : Request :=
  let r := (requestsNew c.baseURL).header "accept" "application/json"
  if c.token = "" then r else r.header "authorization" (strCat "Bearer " c.token)

/-- `Client.newAPIRequest` of the versioned client (client.go:244-248):
`requests.New(c.baseAPIURL)` followed by `c.setHeaders(r)`, which adds a
`user-agent` header and, when a token is set, an `authorization` header
(custom headers, empty by default, are not modelled). -/
def clientNewAPIRequest (c : ClientCfg) : Request :=
  let r := (requestsNew c.baseURL).header "user-agent" "Sanity Go client"
  if c.token = "" then r else r.header "authorization" (strCat "Bearer " c.token)

/-- `maxGETRequestURLLength` (query.go:127). -/
def maxGETRequestURLLength : Nat := 1024

/-- `QueryBuilder.buildGET` (query.go:93-105): path `data/query/<dataset>`,
parameter `query`, then one `$<name>` parameter per named parameter whose
value is its JSON encoding. Parameters are supplied here with their values
already JSON-encoded, as `(name, rawJSON)` pairs; Go iterates the
parameter map in unspecified order, which does not affect the encoded URL
because `url.Values.Encode` sorts keys. -/
def queryBuildGET (c : ClientCfg) (query : String) (params : List (String × String)) : Request :=
  params.foldl
    (fun r p => r.param (strCat "$" p.1) (.ps p.2))
    (((clientNewRequest c).appendPath ["data/query", c.dataset]).param "query" (.ps query))

/-- The JSON body `api.QueryRequest{Query, Params}` marshaled by
`QueryBuilder.buildPOST` (query.go:107-125); `encoding/json` emits struct
fields in declaration order and map keys sorted. -/
def queryPostBody (query : String) (params : List (String × String)) : Json :=
  .jobj [("query", .jstr query),
         ("params", .jobj ((sortStrings (dedupKeys (params.map Prod.fst))).map
            (fun k => (k, Json.raw (((params.filter (fun p => p.1 = k)).map Prod.snd).getD 0 "")))))]

/-- `QueryBuilder.buildPOST` (query.go:107-125): POST to the same path
with the query and parameters in the JSON body. -/
def queryBuildPOST (c : ClientCfg) (query : String) (params : List (String × String)) : Request :=
  (((clientNewRequest c).withMethod "POST").appendPath ["data/query", c.dataset]).marshalBody
    (queryPostBody query params)

/-- The request selection of `QueryBuilder.Do` (query.go:63-74): build the
GET request; if its encoded URL is longer than `maxGETRequestURLLength`
bytes, rebuild as POST. -/
def queryChosenRequest (c : ClientCfg) (query : String) (params : List (String × String)) : Request :=
  let req := queryBuildGET c query params
  if maxGETRequestURLLength < goLen req.encodeURL then queryBuildPOST c query params else req

/-- `api.QueryResponse`: elapsed milliseconds and the raw JSON result (or
its absence). -/
structure QueryResponse where
  ms : Nat
  result : Option String
  deriving Repr, DecidableEq

/-- The query result surfaced by `QueryBuilder.Do` (query.go:81-84). -/
structure QueryResultT where
  timeMs : Nat
  result : Option String
  deriving Repr, DecidableEq

/-- Construction of the surfaced result from the decoded response
(query.go:81-84), shared by the GET and the POST path. -/
def mkQueryResult (resp : QueryResponse) : QueryResultT :=
  { timeMs := resp.ms, result := resp.result }

/-- `QueryBuilder.Do` (query.go:63-91) with the network abstracted as a
function from the sent request to the decoded response: whichever request
was chosen, the decoded response is turned into the result by
`mkQueryResult`. -/
def queryDo (c : ClientCfg) (query : String) (params : List (String × String))
    (respond : Request → QueryResponse) : QueryResultT :=
  mkQueryResult (respond (queryChosenRequest c query params))

/-- `InvalidRequestError` (the client-side validation error of
get_documents.go). -/
structure InvalidRequestErr where
  description : String
  deriving Repr, DecidableEq

/-- `GetDocumentsBuilder.buildGET` (get_documents.go:39-51): zero ids is
an `InvalidRequestError`; otherwise GET `data/doc/<dataset>/<id1,id2,...>`
with a URL-length ceiling check. -/
def getDocumentsBuildGET (c : ClientCfg) (docIDs : List String) : Except InvalidRequestErr Request :=
  if docIDs.length = 0 then .error ⟨"no document ID specified"⟩
  else
    let req := (clientNewAPIRequest c).appendPath
      ["data/doc", c.dataset, String.intercalate "," docIDs]
    if maxGETRequestURLLength < goLen req.encodeURL then .error ⟨"max URL length exceeded"⟩
    else .ok req

/-- Observable behaviour of `GetDocumentsBuilder.Do` (get_documents.go:25-37):
either an error is returned before any network activity, or the built
request is handed to `Client.do`. -/
inductive GetDocumentsCall where
  | clientError : InvalidRequestErr → GetDocumentsCall
  | network : Request → GetDocumentsCall
  deriving Repr

/-- `GetDocumentsBuilder.Do`: `buildGET` then `Client.do`. -/
def getDocumentsDo (c : ClientCfg) (docIDs : List String) : GetDocumentsCall :=
  match getDocumentsBuildGET c docIDs with
  | .error e => .clientError e
  | .ok req => .network req

/-- One mutation item of `api.MutateRequest`, already marshaled to its
JSON object (`{"create": ...}`, `{"delete": {"id": ...}}`, ...); the
claims never inspect the contents of an item. -/
def mutationCreateItem (docJSON : String) : Json := .jobj [("create", .raw docJSON)]

def mutationDeleteItem (id : String) : Json := .jobj [("delete", .jobj [("id", .jstr id)])]

/-- Marshaling of `api.MutateRequest{Mutations: mb.items}`
(part of `encoding/json` behaviour): the builder's `items` slice starts as
a nil `[]*api.MutationItem` and only ever grows by `append`, so it is nil
exactly when no mutation was added, and Go marshals a nil slice as JSON
`null`, not as `[]`. -/
def marshalMutateRequest (items : List Json) : Json :=
  .jobj [("mutations", if items.isEmpty then Json.null else .jarr items)]

/-- `MutationBuilder` state: accumulated (already marshaled) items, the
deferred first error, and the request options with their defaults from
`Client.Mutate` (returnIDs false, returnDocs true, visibility sync,
no transaction id). -/
structure MutationBuilder where
  items : List Json
  merr : Option String
  returnIDs : Bool
  returnDocs : Bool
  visibility : String
  transactionID : String
  deriving Repr

/-- `Client.Mutate` (the fresh builder with its defaults). -/
def clientMutate : MutationBuilder :=
  { items := [], merr := none, returnIDs := false, returnDocs := true,
    visibility := "sync", transactionID := "" }

/-- `MutationBuilder.Do`: on a recorded marshal error return it wrapped;
otherwise POST `data/mutate/<dataset>` with the `returnIds`,
`returnDocuments` and `visibility` parameters, the marshaled
`api.MutateRequest` body, and `transactionId` only when explicitly set. -/
def mutationBuilderDo (c : ClientCfg) (mb : MutationBuilder) : Except String Request :=
  match mb.merr with
  | some e => .error (strCat "mutation builder: " e)
  | none =>
    let req := ((((((clientNewRequest c).withMethod "POST").appendPath
        ["data/mutate", c.dataset]).param "returnIds" (.pb mb.returnIDs)).param
        "returnDocuments" (.pb mb.returnDocs)).param "visibility"
        (.ps mb.visibility)).marshalBody (marshalMutateRequest mb.items)
    if mb.transactionID = "" then .ok req
    else .ok (req.param "transactionId" (.ps mb.transactionID))

/-- Field lookup in a marshaled JSON object. -/
def jsonField (j : Json) (name : String) : Option Json :=
  match j with
  | .jobj fields => (fields.lookup name)
  | _ => none

/-- Go runtime values, as far as `QueryResult.Unmarshal` manipulates
them: integers, strings, pointers into memory, the nil pointer, and
interface values (`none` is the nil interface). -/
inductive GoVal where
  | vint : Int → GoVal
  | vstr : String → GoVal
  | vptr : Nat → GoVal
  | vptrNil : GoVal
  | viface : Option GoVal → GoVal
  deriving Repr

/-- Go memory: a list of cells indexed by address. -/
abbrev GoMem := List GoVal

/-- The `reflect.Kind` of a value, restricted to the kinds that can occur
here. -/
inductive ReflectKind where
  | kInt | kString | kPtr | kInterface
  deriving Repr, DecidableEq

def goKind : GoVal → ReflectKind
  | .vint _ => .kInt
  | .vstr _ => .kString
  | .vptr _ => .kPtr
  | .vptrNil => .kPtr
  | .viface _ => .kInterface

/-- `reflect.Zero` of the type of a value. -/
def goZeroOf : GoVal → GoVal
  | .vint _ => .vint 0
  | .vstr _ => .vstr ""
  | .vptr _ => .vptrNil
  | .vptrNil => .vptrNil
  | .viface _ => .viface none

/-- A `reflect.Value`: either a plain (non-addressable) value, or an
addressable value designating the memory cell it was reached through. -/
inductive RefVal where
  | direct : GoVal → RefVal
  | cell : Nat → RefVal
  deriving Repr

def memRead (mem : GoMem) (a : Nat) : GoVal := mem.getD a (.viface none)

/-- `Value.Kind()`. -/
def rKind (mem : GoMem) : RefVal → ReflectKind
  | .direct v => goKind v
  | .cell a => goKind (memRead mem a)

/-- `reflect.Indirect(v)`: for a pointer, the addressable value it points
to; any other value is returned unchanged. -/
def rIndirect (mem : GoMem) : RefVal → RefVal
  | .direct (.vptr a) => .cell a
  | .direct v => .direct v
  | .cell a =>
    match memRead mem a with
    | .vptr t => .cell t
    | _ => .cell a

/-- `v.Set(reflect.Zero(v.Type()))` on an addressable value: overwrite
the designated cell with the zero value of its current type. A
non-addressable value cannot be set (Go would panic; unreachable in the
embedded code path). -/
def rSetZero (mem : GoMem) : RefVal → GoMem
  | .cell a => mem.set a (goZeroOf (memRead mem a))
  | .direct _ => mem

/-- The `q.Result == nil` branch of `QueryResult.Unmarshal`
(query.go:31-39). `destAddr` is the address of the local parameter
`dest`, an `interface\x7b\x7d` cell that holds whatever the caller passed
(for `Unmarshal(&x)`, a pointer to the caller's variable). The code runs

  v := reflect.ValueOf(&dest)        -- a pointer to the local cell
  if v.Kind() == reflect.Interface || v.Kind() == reflect.Ptr
    i := reflect.Indirect(v)
    i.Set(reflect.Zero(i.Type()))
  return nil

and returns the new memory together with the returned error. -/
def queryResultUnmarshalNil (mem : GoMem) (destAddr : Nat) : GoMem × Option String :=
  let v : RefVal := .direct (.vptr destAddr)
  if rKind mem v = .kInterface ∨ rKind mem v = .kPtr then
    (rSetZero mem (rIndirect mem v), none)
  else
    (mem, none)

/-- The behaviour the claim (and the method's own doc comment) describe:
setting the caller's destination, the cell the passed-in pointer points
to, to the zero value of its type. Modelled from the spec: "absence of a
result must decode into the caller's destination as its zero value". -/
def unmarshalNilSpec (mem : GoMem) (destAddr : Nat) : GoMem × Option String :=
  match memRead mem destAddr with
  | .viface (some (.vptr target)) => (mem.set target (goZeroOf (memRead mem target)), none)
  | _ => (mem, none)

/-- Reduction to a 32-bit word. -/
def w32 (n : Nat) : Nat := n % 4294967296

/-- 32-bit right rotation. -/
def rotr32 (x n : Nat) : Nat := w32 ((x >>> n) ||| (x <<< (32 - n)))

/-- Bitwise complement on 32 bits. -/
def not32 (x : Nat) : Nat := x ^^^ 4294967295

def shaCh (x y z : Nat) : Nat := (x &&& y) ^^^ (not32 x &&& z)

def shaMaj (x y z : Nat) : Nat := (x &&& y) ^^^ (x &&& z) ^^^ (y &&& z)

def sigBig0 (x : Nat) : Nat := rotr32 x 2 ^^^ rotr32 x 13 ^^^ rotr32 x 22

def sigBig1 (x : Nat) : Nat := rotr32 x 6 ^^^ rotr32 x 11 ^^^ rotr32 x 25

def sigSmall0 (x : Nat) : Nat := rotr32 x 7 ^^^ rotr32 x 18 ^^^ (x >>> 3)

def sigSmall1 (x : Nat) : Nat := rotr32 x 17 ^^^ rotr32 x 19 ^^^ (x >>> 10)

/-- The SHA-256 round constants. -/
def sha256K : List Nat :=
  [1116352408, 1899447441, 3049323471, 3921009573,
   961987163, 1508970993, 2453635748, 2870763221,
   3624381080, 310598401, 607225278, 1426881987,
   1925078388, 2162078206, 2614888103, 3248222580,
   3835390401, 4022224774, 264347078, 604807628,
   770255983, 1249150122, 1555081692, 1996064986,
   2554220882, 2821834349, 2952996808, 3210313671,
   3336571891, 3584528711, 113926993, 338241895,
   666307205, 773529912, 1294757372, 1396182291,
   1695183700, 1986661051, 2177026350, 2456956037,
   2730485921, 2820302411, 3259730800, 3345764771,
   3516065817, 3600352804, 4094571909, 275423344,
   430227734, 506948616, 659060556, 883997877,
   958139571, 1322822218, 1537002063, 1747873779,
   1955562222, 2024104815, 2227730452, 2361852424,
   2428436474, 2756734187, 3204031479, 3329325298]

/-- A SHA-256 chaining state of eight 32-bit words. -/
structure Hash8 where
  a : Nat
  b : Nat
  c : Nat
  d : Nat
  e : Nat
  f : Nat
  g : Nat
  h : Nat
  deriving Repr, DecidableEq

/-- The SHA-256 initial hash value. -/
def sha256H0 : Hash8 :=
  ⟨1779033703, 3144134277, 1013904242, 2773480762,
   1359893119, 2600822924, 528734635, 1541459225⟩

/-- Big-endian decomposition of a 32-bit word into four bytes. -/
def word4 (x : Nat) : List Nat := [(x >>> 24) % 256, (x >>> 16) % 256, (x >>> 8) % 256, x % 256]

/-- Big-endian 32-bit words from a byte list (the 16 words of a block). -/
def bytesToWords : List Nat → List Nat
  | b1 :: b2 :: b3 :: b4 :: rest => (((b1 * 256 + b2) * 256 + b3) * 256 + b4) :: bytesToWords rest
  | _ => []

/-- Message-schedule extension: append `k` further words, each computed
from the words 2, 7, 15 and 16 positions back. -/
def scheduleExtend (w : List Nat) : Nat → List Nat
  | 0 => w
  | k + 1 =>
    let n := w.length
    scheduleExtend
      (w ++ [w32 (sigSmall1 (w.getD (n - 2) 0) + w.getD (n - 7) 0 +
                  sigSmall0 (w.getD (n - 15) 0) + w.getD (n - 16) 0)]) k

/-- One SHA-256 round, consuming a round constant paired with a schedule
word. -/
def sha256Round (st : Hash8) (kw : Nat × Nat) : Hash8 :=
  let t1 := w32 (st.h + sigBig1 st.e + shaCh st.e st.f st.g + kw.1 + kw.2)
  let t2 := w32 (sigBig0 st.a + shaMaj st.a st.b st.c)
  ⟨w32 (t1 + t2), st.a, st.b, st.c, w32 (st.d + t1), st.e, st.f, st.g⟩

/-- SHA-256 compression of one 64-byte block into the chaining state. -/
def sha256Compress (st : Hash8) (block : List Nat) : Hash8 :=
  let w := scheduleExtend (bytesToWords block) 48
  let r := (sha256K.zip w).foldl sha256Round st
  ⟨w32 (st.a + r.a), w32 (st.b + r.b), w32 (st.c + r.c), w32 (st.d + r.d),
   w32 (st.e + r.e), w32 (st.f + r.f), w32 (st.g + r.g), w32 (st.h + r.h)⟩

/-- SHA-256 padding: `0x80`, zeros to 56 mod 64, then the bit length as
eight big-endian bytes. -/
def sha256Pad (msg : List Nat) : List Nat :=
  let len := msg.length
  let zeros := (64 - (len + 9) % 64) % 64
  msg ++ 128 :: List.replicate zeros 0 ++
    [((len * 8) >>> 56) % 256, ((len * 8) >>> 48) % 256, ((len * 8) >>> 40) % 256,
     ((len * 8) >>> 32) % 256, ((len * 8) >>> 24) % 256, ((len * 8) >>> 16) % 256,
     ((len * 8) >>> 8) % 256, (len * 8) % 256]

/-- Split a byte list into 64-byte blocks. -/
def chunks64 (l : List Nat) : List (List Nat) :=
  if h : l = [] then []
  else (l.take 64) :: chunks64 (l.drop 64)
termination_by l.length
decreasing_by
  cases l with
  | nil => exact absurd rfl h
  | cons a t => simp [List.length_drop]; omega

/-- The final hash bytes: the eight chaining words, big-endian. -/
def hashToBytes (st : Hash8) : List Nat :=
  word4 st.a ++ word4 st.b ++ word4 st.c ++ word4 st.d ++
  word4 st.e ++ word4 st.f ++ word4 st.g ++ word4 st.h

/-- SHA-256 of a byte list. -/
def sha256 (msg : List Nat) : List Nat :=
  hashToBytes ((chunks64 (sha256Pad msg)).foldl sha256Compress sha256H0)

/-- HMAC-SHA256 (`crypto/hmac` with `sha256.New`): keys longer than the
64-byte block size are hashed, keys are zero-padded to the block size,
and the result is `H(opad ++ H(ipad ++ msg))`. -/
def hmacSha256 (key msg : List Nat) : List Nat :=
  let k0 := if 64 < key.length then sha256 key else key
  let k := k0 ++ List.replicate (64 - k0.length) 0
  sha256 ((k.map fun b => b ^^^ 92) ++ sha256 ((k.map fun b => b ^^^ 54) ++ msg))

/-- The base64url alphabet (RFC 4648 §5), used by Go's
`base64.RawURLEncoding`. -/
def base64urlChars : List Char :=
  "ABCDEFGHIJKLMNOPQRSTUVWXYZabcdefghijklmnopqrstuvwxyz0123456789-_".data

def b64char (n : Nat) : Char := base64urlChars.getD n 'A'

/-- Unpadded base64url encoding (`base64.RawURLEncoding.EncodeToString`). -/
def base64urlEncode : List Nat → List Char
  | [] => []
  | [b1] => [b64char (b1 >>> 2), b64char ((b1 &&& 3) <<< 4)]
  | [b1, b2] => [b64char (b1 >>> 2), b64char (((b1 &&& 3) <<< 4) ||| (b2 >>> 4)),
                 b64char ((b2 &&& 15) <<< 2)]
  | b1 :: b2 :: b3 :: rest =>
    b64char (b1 >>> 2) :: b64char (((b1 &&& 3) <<< 4) ||| (b2 >>> 4)) ::
    b64char ((((b2 &&& 15) <<< 2) ||| (b3 >>> 6))) :: b64char (b3 &&& 63) ::
    base64urlEncode rest

/-- Decimal digit character, `'0' + d`. -/
def digitChar (d : Nat) : Char := Char.ofNat (48 + d)

/-- Decimal digits of a natural number, least significant first, with a
structural fuel bound (one digit per unit of fuel). -/
def natToDigitsRevFuel : Nat → Nat → List Char
  | 0, _ => []
  | fuel + 1, n =>
    if n < 10 then [digitChar n] else digitChar (n % 10) :: natToDigitsRevFuel fuel (n / 10)

/-- Decimal digits of a natural number, least significant first. Twenty
digits cover every value of Go's 64-bit `int`, the domain of the `%d`
rendering being embedded. -/
def natToDigitsRev (n : Nat) : List Char := natToDigitsRevFuel 20 n

/-- Decimal representation of a natural number, as produced by Go's
`fmt.Sprintf` verb `%d` for nonnegative values. -/
def natReprChars (n : Nat) : List Char := (natToDigitsRev n).reverse

def natReprStr (n : Nat) : String := ⟨natReprChars n⟩

/-- Value of a decimal digit string (the reading `strconv.Atoi` performs
on a string of digits). -/
def digitsToNat (l : List Char) : Nat := l.foldl (fun acc c => acc * 10 + (c.toNat - 48)) 0

/-- Go's `int` is 64 bits; `strconv.Atoi` fails with `ErrRange` beyond
this bound. -/
def maxGoInt : Nat := 9223372036854775807

/-- `strconv.Atoi` on a string of decimal digits (the only strings the
code passes to it, since the input is the regex group `(\d+)`): the
value, or a range error when it exceeds the 64-bit `int`. -/
def goAtoiDigits (l : List Char) : Except String Nat :=
  let n := digitsToNat l
  if n ≤ maxGoInt then .ok n else .error "value out of range"

/-- ASCII whitespace trimmed by `strings.TrimSpace` (Go also trims some
Unicode space characters, which cannot occur in the headers and encoded
values considered here). -/
def isSpaceChar (c : Char) : Bool :=
  c == ' ' || c == '\t' || c == '\n' || c == '\x0b' || c == '\x0c' || c == '\r'

/-- `strings.TrimSpace` on a character list: drop leading and trailing
whitespace. -/
def trimList (l : List Char) : List Char :=
  ((l.dropWhile isSpaceChar).reverse.dropWhile isSpaceChar).reverse

/-- The separator class `[, ]` of the signature header pattern. -/
def sepChar (c : Char) : Bool := c == ',' || c == ' '

/-- Deterministic matcher for the anchored pattern
`^t=(\d+)[, ]+v1=([^, ]+)$` of auth.go:23, returning the two capture
groups. Because the classes `\d`, `[, ]` and the literal characters that
can follow each repetition are pairwise disjoint, the regular expression
matches a string exactly when this maximal-munch parse succeeds, and the
captures agree: `\d+` is a maximal run of digits (the following class
`[, ]` contains no digit), `[, ]+` is a maximal run of separators (the
following literal `v` is not a separator), and the trailing `[^, ]+$`
consumes the entire remainder, which therefore must be nonempty and
contain no separator. In Go's regexp syntax (RE2 without the `m` flag),
`^` and `$` anchor at the beginning and end of the whole text. -/
def matchSigTail (afterSeps : List Char) (digits : List Char) : Option (List Char × List Char) :=
  match afterSeps with
  | d1 :: d2 :: d3 :: sig =>
    if d1 = 'v' ∧ d2 = '1' ∧ d3 = '=' then
      if sig.isEmpty then none
      else if sig.any sepChar then none
      else some (digits, sig)
    else none
  | _ => none

def matchSigList (l : List Char) : Option (List Char × List Char) :=
  match l with
  | c1 :: c2 :: rest =>
    if c1 = 't' ∧ c2 = '=' then
      let digits := rest.takeWhile Char.isDigit
      let afterDigits := rest.dropWhile Char.isDigit
      if digits.isEmpty then none
      else
        let seps := afterDigits.takeWhile sepChar
        if seps.isEmpty then none
        else matchSigTail (afterDigits.dropWhile sepChar) digits
    else none
  | _ => none

/-- `MinimumTimestamp` (auth.go:20): 2021-01-01T00:00:00.000Z in epoch
milliseconds; Sanity sent no signed payloads before it. -/
def MinimumTimestamp : Nat := 1609459200000

/-- `generateHS256Signature` (auth.go:81-85): base64url (unpadded) of the
HMAC-SHA256 of `"<timestamp>.<payload>"` keyed by the secret. -/
def generateHS256Signature (payload : String) (timestamp : Nat) (secret : String) : String :=
  ⟨base64urlEncode (hmacSha256 (utf8Encode secret)
      (utf8Encode (strCat (natReprStr timestamp) (strCat "." payload))))⟩

/-- `encodeSignatureHeader` (auth.go:72-79): the canonical header
`t=<timestamp>,v1=<signature>`. -/
def encodeSignatureHeader (payload : String) (timestamp : Nat) (secret : String) : String :=
  strCat "t=" (strCat (natReprStr timestamp)
    (strCat ",v1=" (generateHS256Signature payload timestamp secret)))

/-- `decodeSignatureHeader` (auth.go:59-70): trim the header, match the
signature pattern, and parse the timestamp with `strconv.Atoi`;
returns the signature group and the timestamp. -/
def decodeSignatureHeader (signaturePayload : String) : Except String (List Char × Nat) :=
  match matchSigList (trimList signaturePayload.data) with
  | none => .error "invalid signature"
  | some (digits, hashedPayload) =>
    match goAtoiDigits digits with
    | .error e => .error e
    | .ok timestamp => .ok (hashedPayload, timestamp)

/-- `IsValidSignature` (auth.go:44-57). Go returns `(bool, error)` where
the bool is false whenever the error is non-nil; this is embedded as
`Except`: `.error e` is `(false, e)` and `.ok b` is `(b, nil)`. Note the
final comparison is `signature != expectedSignature` on the whole,
untrimmed header string. -/
def IsValidSignature (payload signature webhookSecret : String) : Except String Bool :=
  match decodeSignatureHeader signature with
  | .error e => .error e
  | .ok (_, timestamp) =>
    if timestamp < MinimumTimestamp then
      .error "invalid signature timestamp, must be a unix timestamp with millisecond precision"
    else if signature ≠ encodeSignatureHeader payload timestamp webhookSecret then
      .ok false
    else
      .ok true

/-- The continuation of `IsValidSignature` once the header has matched
the pattern with digit group `d`: the `strconv.Atoi` range check, the
timestamp floor check, and the comparison of the whole provided header
against the recomputed canonical header. -/
def isValidSigSome (payload secret hdr : String) (d : List Char) : Except String Bool :=
  if digitsToNat d ≤ maxGoInt then
    if digitsToNat d < MinimumTimestamp then
      .error "invalid signature timestamp, must be a unix timestamp with millisecond precision"
    else if hdr ≠ encodeSignatureHeader payload (digitsToNat d) secret then .ok false
    else .ok true
  else .error "value out of range"

/-- Whether an `Except` result is an error (the Go call returned a
non-nil `error`). -/
def exceptIsError : Except String Bool → Bool
  | .error _ => true
  | .ok _ => false

/-- A doubled path separator somewhere in a character list. -/
def hasDoubleSlashL : List Char → Bool
  | [] => false
  | [_] => false
  | a :: b :: rest => (a == '/' && b == '/') || hasDoubleSlashL (b :: rest)

/-- The header used to refute the separator-insensitivity claim: the
space-separated variant of a correctly signed header. -/
def spaceSepHeader : String :=
  strCat "t=1633519811129 v1=" (generateHS256Signature "p" 1633519811129 "test")

/-- A concrete client configuration matching the test suite
(`VersionV1.NewClient("myProject", "myDataset")`). -/
def demoClient : ClientCfg :=
  { baseURL := { scheme := "https", host := "myProject.api.sanity.io", path := "/v1" },
    dataset := "myDataset", token := "" }

/-- Helper lemmas about `takeWhile` and `dropWhile` on a list that starts
with a run satisfying the predicate followed by a character that does
not. -/
theorem takeWhile_run_append {p : Char → Bool} {l1 : List Char} {c : Char} {l2 : List Char}
    (h1 : ∀ x ∈ l1, p x = true) (hc : p c = false) :
    (l1 ++ c :: l2).takeWhile p = l1 := by
  induction l1 with
  | nil => simp [List.takeWhile, hc]
  | cons a t ih =>
    have ha : p a = true := h1 a (by simp)
    simp only [List.cons_append, List.takeWhile_cons, ha, if_true]
    rw [ih (fun x hx => h1 x (by simp [hx]))]

theorem dropWhile_run_append {p : Char → Bool} {l1 : List Char} {c : Char} {l2 : List Char}
    (h1 : ∀ x ∈ l1, p x = true) (hc : p c = false) :
    (l1 ++ c :: l2).dropWhile p = c :: l2 := by
  induction l1 with
  | nil => simp [List.dropWhile, hc]
  | cons a t ih =>
    have ha : p a = true := h1 a (by simp)
    simp only [List.cons_append, List.dropWhile_cons, ha, if_true]
    exact ih (fun x hx => h1 x (by simp [hx]))

theorem dropWhile_of_head_false {p : Char → Bool} {l : List Char}
    (h : ∀ c, l.head? = some c → p c = false) : l.dropWhile p = l := by
  cases l with
  | nil => rfl
  | cons a t => simp [List.dropWhile_cons, h a rfl]

theorem getLast?_append_right {l1 l2 : List Char} (h : l2 ≠ []) :
    (l1 ++ l2).getLast? = l2.getLast? := by
  induction l1 with
  | nil => rfl
  | cons a t ih =>
    rw [List.cons_append, List.getLast?_cons, ih]
    cases l2 with
    | nil => exact absurd rfl h
    | cons b u => simp [List.getLast?_cons]

theorem trimList_eq_self {l : List Char}
    (h1 : ∀ c, l.head? = some c → isSpaceChar c = false)
    (h2 : ∀ c, l.getLast? = some c → isSpaceChar c = false) :
    trimList l = l := by
  unfold trimList
  rw [dropWhile_of_head_false h1]
  rw [dropWhile_of_head_false (by
    intro c hc
    rw [List.head?_reverse] at hc
    exact h2 c hc)]
  exact List.reverse_reverse l

theorem digitChar_isDigit {d : Nat} (h : d < 10) : (digitChar d).isDigit = true := by
  interval_cases d <;> decide

theorem digitChar_toNat {d : Nat} (h : d < 10) : (digitChar d).toNat = 48 + d := by
  interval_cases d <;> decide

theorem natToDigitsRevFuel_all_digits :
    ∀ (fuel n : Nat), ∀ c ∈ natToDigitsRevFuel fuel n, c.isDigit = true := by
  intro fuel
  induction fuel with
  | zero => intro n c hc; simp [natToDigitsRevFuel] at hc
  | succ fuel ih =>
    intro n c hc
    unfold natToDigitsRevFuel at hc
    split at hc
    · rw [List.mem_singleton] at hc
      subst hc
      exact digitChar_isDigit (by omega)
    · rcases List.mem_cons.mp hc with h | h
      · subst h; exact digitChar_isDigit (Nat.mod_lt _ (by omega))
      · exact ih (n / 10) c h

theorem natToDigitsRev_all_digits (n : Nat) : ∀ c ∈ natToDigitsRev n, c.isDigit = true :=
  natToDigitsRevFuel_all_digits 20 n

theorem natToDigitsRev_ne_nil (n : Nat) : natToDigitsRev n ≠ [] := by
  unfold natToDigitsRev natToDigitsRevFuel
  split <;> simp

theorem natReprChars_all_digits (n : Nat) : ∀ c ∈ natReprChars n, c.isDigit = true := by
  intro c hc
  exact natToDigitsRev_all_digits n c (List.mem_reverse.mp hc)

theorem natReprChars_ne_nil (n : Nat) : natReprChars n ≠ [] := by
  unfold natReprChars
  simp [natToDigitsRev_ne_nil n]

theorem digitsToNat_append_one (l : List Char) (c : Char) :
    digitsToNat (l ++ [c]) = digitsToNat l * 10 + (c.toNat - 48) := by
  unfold digitsToNat
  rw [List.foldl_append]
  rfl

theorem digitsToNat_natToDigitsRevFuel :
    ∀ (fuel n : Nat), n < 10 ^ fuel → digitsToNat (natToDigitsRevFuel fuel n).reverse = n := by
  intro fuel
  induction fuel with
  | zero =>
    intro n h
    have hn : n = 0 := by omega
    subst hn
    rfl
  | succ fuel ih =>
    intro n h
    unfold natToDigitsRevFuel
    split
    · next hlt =>
      simp [digitsToNat]
      rw [digitChar_toNat hlt]
      omega
    · next hge =>
      rw [List.reverse_cons, digitsToNat_append_one]
      have hdiv : n / 10 < 10 ^ fuel := by
        rw [pow_succ] at h
        omega
      rw [ih (n / 10) hdiv, digitChar_toNat (Nat.mod_lt _ (by omega))]
      omega

theorem digitsToNat_natReprChars {n : Nat} (h : n ≤ maxGoInt) :
    digitsToNat (natReprChars n) = n := by
  apply digitsToNat_natToDigitsRevFuel 20 n
  unfold maxGoInt at h
  omega

theorem b64char_mem (n : Nat) : b64char n ∈ base64urlChars := by
  unfold b64char
  rcases h : base64urlChars.get? n with _ | c
  · rw [List.getD_eq_getElem?_getD, ← List.get?_eq_getElem?, h]
    decide
  · rw [List.getD_eq_getElem?_getD, ← List.get?_eq_getElem?, h]
    exact List.get?_mem h

theorem base64url_alphabet : ∀ l : List Nat, ∀ c ∈ base64urlEncode l, c ∈ base64urlChars
  | [] => by simp [base64urlEncode]
  | [b1] => by
    intro c hc
    unfold base64urlEncode at hc
    rcases List.mem_cons.mp hc with h | h
    · subst h; exact b64char_mem _
    · rw [List.mem_singleton] at h; subst h; exact b64char_mem _
  | [b1, b2] => by
    intro c hc
    unfold base64urlEncode at hc
    rcases List.mem_cons.mp hc with h | h
    · subst h; exact b64char_mem _
    rcases List.mem_cons.mp h with h2 | h2
    · subst h2; exact b64char_mem _
    · rw [List.mem_singleton] at h2; subst h2; exact b64char_mem _
  | b1 :: b2 :: b3 :: rest => by
    intro c hc
    unfold base64urlEncode at hc
    rcases List.mem_cons.mp hc with h | h
    · subst h; exact b64char_mem _
    rcases List.mem_cons.mp h with h2 | h2
    · subst h2; exact b64char_mem _
    rcases List.mem_cons.mp h2 with h3 | h3
    · subst h3; exact b64char_mem _
    rcases List.mem_cons.mp h3 with h4 | h4
    · subst h4; exact b64char_mem _
    · exact base64url_alphabet rest c h4

theorem base64url_ne_nil : ∀ l : List Nat, l ≠ [] → base64urlEncode l ≠ []
  | [], h => absurd rfl h
  | [b1], _ => by simp [base64urlEncode]
  | [b1, b2], _ => by simp [base64urlEncode]
  | b1 :: b2 :: b3 :: rest, _ => by simp [base64urlEncode]

theorem hashToBytes_ne_nil (st : Hash8) : hashToBytes st ≠ [] := by
  simp [hashToBytes, word4]

theorem sha256_ne_nil (msg : List Nat) : sha256 msg ≠ [] := hashToBytes_ne_nil _

theorem hmacSha256_ne_nil (key msg : List Nat) : hmacSha256 key msg ≠ [] := sha256_ne_nil _

/-- No character of the base64url alphabet is a header separator (comma
or space) or whitespace. -/
theorem base64urlChars_not_sep : ∀ c ∈ base64urlChars, sepChar c = false ∧ isSpaceChar c = false := by
  decide

theorem isEmpty_false_of_ne_nil {α : Type} {l : List α} (h : l ≠ []) : l.isEmpty = false := by
  cases l with
  | nil => exact absurd rfl h
  | cons a t => rfl

/-- Running the header matcher on a well-formed header
`t=<digits><sep>v1=<sig>` whose signature part is drawn from the
base64url alphabet extracts the two groups, for either separator. -/
theorem matchSigList_encoded (sep : Char) (hsep : sep = ',' ∨ sep = ' ') (ts : Nat)
    (g : List Char) (hg : g ≠ []) (hgal : ∀ c ∈ g, c ∈ base64urlChars) :
    matchSigList ('t' :: '=' :: (natReprChars ts ++ sep :: 'v' :: '1' :: '=' :: g)) =
      some (natReprChars ts, g) := by
  have hdig : ∀ x ∈ natReprChars ts, Char.isDigit x = true := natReprChars_all_digits ts
  have hsepd : Char.isDigit sep = false := by
    rcases hsep with h | h <;> subst h <;> decide
  have hsepc : sepChar sep = true := by
    rcases hsep with h | h <;> subst h <;> decide
  have hdigne : (natReprChars ts).isEmpty = false :=
    isEmpty_false_of_ne_nil (natReprChars_ne_nil ts)
  have hgne : g.isEmpty = false := isEmpty_false_of_ne_nil hg
  have hany : g.any sepChar = false := by
    cases h : g.any sepChar with
    | false => rfl
    | true =>
      exfalso
      obtain ⟨c, hc, hpc⟩ := List.any_eq_true.mp h
      exact absurd hpc (by simp [(base64urlChars_not_sep c (hgal c hc)).1])
  show matchSigList ('t' :: '=' :: (natReprChars ts ++ sep :: 'v' :: '1' :: '=' :: g)) = _
  unfold matchSigList
  simp only [takeWhile_run_append hdig hsepd, dropWhile_run_append hdig hsepd]
  rw [if_pos (⟨trivial, trivial⟩ : True ∧ True)]
  simp only [hdigne, Bool.false_eq_true, if_false, List.takeWhile_cons, List.dropWhile_cons,
    hsepc, if_true]
  have hvsep : sepChar 'v' = false := by decide
  simp only [hvsep, Bool.false_eq_true, if_false, List.takeWhile_cons]
  norm_num
  simp [matchSigTail, hgne, hany]

/-- A well-formed signature header has no leading or trailing whitespace,
so `strings.TrimSpace` leaves it unchanged. -/
theorem trimList_sig_header (sep : Char) (ts : Nat) (g : List Char) (hg : g ≠ [])
    (hgal : ∀ c ∈ g, c ∈ base64urlChars) :
    trimList ('t' :: '=' :: (natReprChars ts ++ sep :: 'v' :: '1' :: '=' :: g)) =
      't' :: '=' :: (natReprChars ts ++ sep :: 'v' :: '1' :: '=' :: g) := by
  apply trimList_eq_self
  · intro c hc
    rw [List.head?_cons] at hc
    rw [show c = 't' from (Option.some_inj.mp hc).symm]
    decide
  · intro c hc
    have hsplit : ('t' :: '=' :: (natReprChars ts ++ sep :: 'v' :: '1' :: '=' :: g)) =
        ('t' :: '=' :: (natReprChars ts ++ [sep, 'v', '1', '='])) ++ g := by
      simp
    rw [hsplit, getLast?_append_right hg] at hc
    have hcm : c ∈ g := by
      rw [List.getLast?_eq_getLast_of_ne_nil hg] at hc
      rw [← Option.some_inj.mp hc]
      exact List.getLast_mem hg
    exact (base64urlChars_not_sep c (hgal c hcm)).2

/-- The character list of the canonical header produced by
`encodeSignatureHeader`. -/
theorem encodeSignatureHeader_data (payload : String) (ts : Nat) (secret : String) :
    (encodeSignatureHeader payload ts secret).data =
      't' :: '=' :: (natReprChars ts ++ ',' :: 'v' :: '1' :: '=' ::
        (generateHS256Signature payload ts secret).data) := by
  show "t=".data ++ (natReprChars ts ++ (",v1=".data ++ _)) = _
  simp

/-- Every character of a generated signature is in the base64url
alphabet. -/
theorem generateHS256Signature_alphabet (payload : String) (ts : Nat) (secret : String) :
    ∀ c ∈ (generateHS256Signature payload ts secret).data, c ∈ base64urlChars :=
  base64url_alphabet _

/-- A generated signature is nonempty (an HMAC digest has bytes). -/
theorem generateHS256Signature_ne_nil (payload : String) (ts : Nat) (secret : String) :
    (generateHS256Signature payload ts secret).data ≠ [] :=
  base64url_ne_nil _ (hmacSha256_ne_nil _ _)

/-- Decoding the canonical header extracts the signature and timestamp
whenever the timestamp fits Go's 64-bit `int`. -/
theorem decodeSignatureHeader_encoded (payload : String) (ts : Nat) (secret : String)
    (hts : ts ≤ maxGoInt) :
    decodeSignatureHeader (encodeSignatureHeader payload ts secret) =
      .ok ((generateHS256Signature payload ts secret).data, ts) := by
  unfold decodeSignatureHeader
  rw [encodeSignatureHeader_data, trimList_sig_header ',' ts _
    (generateHS256Signature_ne_nil payload ts secret)
    (generateHS256Signature_alphabet payload ts secret)]
  rw [matchSigList_encoded ',' (Or.inl rfl) ts _
    (generateHS256Signature_ne_nil payload ts secret)
    (generateHS256Signature_alphabet payload ts secret)]
  simp [goAtoiDigits, digitsToNat_natReprChars hts, hts]

theorem natReprChars_big : natReprChars 1633519811129 = "1633519811129".data := by
  unfold natReprChars
  simp [natToDigitsRev]
  decide

theorem spaceSepHeader_data : spaceSepHeader.data =
    't' :: '=' :: (natReprChars 1633519811129 ++ ' ' :: 'v' :: '1' :: '=' ::
      (generateHS256Signature "p" 1633519811129 "test").data) := by
  rw [natReprChars_big]
  show "t=1633519811129 v1=".data ++ _ = _
  simp

/-- The space-separated variant of a correctly signed header differs from
the canonical comma form as a string, whatever the signature characters
are. -/
theorem spaceSepHeader_ne_canonical :
    spaceSepHeader ≠ encodeSignatureHeader "p" 1633519811129 "test" := by
  intro h
  have hd := congrArg String.data h
  rw [spaceSepHeader_data, encodeSignatureHeader_data] at hd
  simp only [List.cons.injEq, true_and] at hd
  rw [List.append_right_inj] at hd
  simp at hd

/-- Claim C6 counterexample. The claim asserts that a header in the
accepted form whose signature component equals the recomputed HMAC
verifies as true regardless of the separator, because "the comparison is
between the recomputed signature and the provided signature". In the code
the comparison is `signature != expectedSignature` on the whole header
string, and `encodeSignatureHeader` always renders the comma form, so the
space-separated header with the correct signature component parses
successfully yet verifies as false (with no error). -/
theorem c6_counterexample :
    (matchSigList (trimList spaceSepHeader.data)).isSome = true
    ∧ IsValidSignature "p" spaceSepHeader "test" = .ok false := by
  have hgne := generateHS256Signature_ne_nil "p" 1633519811129 "test"
  have hgal := generateHS256Signature_alphabet "p" 1633519811129 "test"
  have htrim : trimList spaceSepHeader.data = spaceSepHeader.data := by
    rw [spaceSepHeader_data]
    exact trimList_sig_header ' ' _ _ hgne hgal
  have hmatch : matchSigList (trimList spaceSepHeader.data) =
      some (natReprChars 1633519811129,
        (generateHS256Signature "p" 1633519811129 "test").data) := by
    rw [htrim, spaceSepHeader_data]
    exact matchSigList_encoded ' ' (Or.inr rfl) _ _ hgne hgal
  refine ⟨by rw [hmatch]; rfl, ?_⟩
  have hval : goAtoiDigits (natReprChars 1633519811129) = .ok 1633519811129 := by
    unfold goAtoiDigits
    rw [digitsToNat_natReprChars (by norm_num [maxGoInt])]
    norm_num [maxGoInt]
  have hfloor : ¬ (1633519811129 < MinimumTimestamp) := by norm_num [MinimumTimestamp]
  unfold IsValidSignature decodeSignatureHeader
  rw [hmatch]
  simp [hval, hfloor, spaceSepHeader_ne_canonical]

/-- Claim C6, amended: for every payload, secret and timestamp at or
above the floor (and within Go's 64-bit `int`), the canonical
comma-separated header produced by `encodeSignatureHeader` verifies as
true. The space-separated variant of the accepted form parses but fails
the final whole-string comparison, so the separator does affect the
verdict (see the counterexample). -/
theorem c6_amended_canonical_header_verifies (payload secret : String) (ts : Nat)
    (h1 : MinimumTimestamp ≤ ts) (h2 : ts ≤ maxGoInt) :
    IsValidSignature payload (encodeSignatureHeader payload ts secret) secret = .ok true := by
  unfold IsValidSignature
  rw [decodeSignatureHeader_encoded payload ts secret h2]
  simp [show ¬ (ts < MinimumTimestamp) from by omega]

/-- Witness for the amended claim C6 at a concrete input. -/
theorem c6_witness :
    MinimumTimestamp ≤ 1633519811129 ∧ 1633519811129 ≤ maxGoInt ∧
    IsValidSignature "p" (encodeSignatureHeader "p" 1633519811129 "test") "test" = .ok true :=
  ⟨by norm_num [MinimumTimestamp], by norm_num [maxGoInt],
    c6_amended_canonical_header_verifies "p" "test" 1633519811129
      (by norm_num [MinimumTimestamp]) (by norm_num [maxGoInt])⟩

/-- Normal form of `IsValidSignature` when the header fails the
pattern. -/
theorem IsValidSignature_eq_none (payload secret hdr : String)
    (hm : matchSigList (trimList hdr.data) = none) :
    IsValidSignature payload hdr secret = .error "invalid signature" := by
  unfold IsValidSignature decodeSignatureHeader
  rw [hm]

/-- Normal form of `IsValidSignature` when the header matches the
pattern with digit group `d`. -/
theorem IsValidSignature_eq_some (payload secret hdr : String) (d g : List Char)
    (hm : matchSigList (trimList hdr.data) = some (d, g)) :
    IsValidSignature payload hdr secret = isValidSigSome payload secret hdr d := by
  unfold IsValidSignature decodeSignatureHeader goAtoiDigits isValidSigSome
  rw [hm]
  by_cases hov : digitsToNat d ≤ maxGoInt
  · simp [hov]
  · simp [hov]

/-- Claim C5 counterexample. The claim asserts an error occurs if and
only if the header is malformed or the parsed timestamp is below the
floor. The header `t=99999999999999999999,v1=x` matches the accepted
`t=<digits>,v1=<sig>` format and its numeric timestamp is far above the
floor, yet verification returns an error, because `strconv.Atoi` fails
with a range error on a value beyond Go's 64-bit `int`. -/
theorem c5_counterexample :
    matchSigList (trimList "t=99999999999999999999,v1=x".data) =
      some ("99999999999999999999".data, "x".data)
    ∧ MinimumTimestamp ≤ digitsToNat "99999999999999999999".data
    ∧ exceptIsError (IsValidSignature "p" "t=99999999999999999999,v1=x" "s") = true := by
  refine ⟨by decide, by decide, by decide⟩

/-- When the whole header string equals the canonical encoding, the
matched signature group is exactly the generated signature. -/
theorem matched_sig_of_eq_canonical (payload secret hdr : String) (d g : List Char)
    (hm : matchSigList (trimList hdr.data) = some (d, g))
    (heq : hdr = encodeSignatureHeader payload (digitsToNat d) secret) :
    g = (generateHS256Signature payload (digitsToNat d) secret).data := by
  have hdata := congrArg String.data heq
  rw [encodeSignatureHeader_data] at hdata
  have hmatch2 : matchSigList (trimList hdr.data) =
      some (natReprChars (digitsToNat d),
        (generateHS256Signature payload (digitsToNat d) secret).data) := by
    rw [hdata]
    rw [trimList_sig_header ',' _ _
      (generateHS256Signature_ne_nil payload (digitsToNat d) secret)
      (generateHS256Signature_alphabet payload (digitsToNat d) secret)]
    exact matchSigList_encoded ',' (Or.inl rfl) _ _
      (generateHS256Signature_ne_nil payload (digitsToNat d) secret)
      (generateHS256Signature_alphabet payload (digitsToNat d) secret)
  rw [hm, Option.some_inj] at hmatch2
  exact congrArg Prod.snd hmatch2

/-- Claim C5, amended: verification returns an error if and only if the
header fails the accepted format, or the digit group overflows the
64-bit integer parse (`strconv.Atoi` range error), or the parsed
timestamp is below the floor; and for every header in the accepted
format with an in-range timestamp at or above the floor whose signature
component differs from the recomputed HMAC signature, verification
returns false with no error. -/
theorem c5_amended_verification_errors (payload secret hdr : String) :
    (exceptIsError (IsValidSignature payload hdr secret) = true ↔
      matchSigList (trimList hdr.data) = none
      ∨ ∃ d g, matchSigList (trimList hdr.data) = some (d, g) ∧
          (maxGoInt < digitsToNat d ∨ digitsToNat d < MinimumTimestamp))
    ∧ (∀ d g, matchSigList (trimList hdr.data) = some (d, g) →
        digitsToNat d ≤ maxGoInt → MinimumTimestamp ≤ digitsToNat d →
        (⟨g⟩ : String) ≠ generateHS256Signature payload (digitsToNat d) secret →
        IsValidSignature payload hdr secret = .ok false) := by
  constructor
  · rcases hm : matchSigList (trimList hdr.data) with _ | ⟨d, g⟩
    · rw [IsValidSignature_eq_none payload secret hdr hm]
      simp [exceptIsError]
    · rw [IsValidSignature_eq_some payload secret hdr d g hm]
      unfold isValidSigSome
      by_cases hov : digitsToNat d ≤ maxGoInt
      · by_cases hfl : digitsToNat d < MinimumTimestamp
        · rw [if_pos hov, if_pos hfl]
          simp only [exceptIsError, true_iff]
          exact Or.inr ⟨d, g, rfl, Or.inr hfl⟩
        · rw [if_pos hov, if_neg hfl]
          constructor
          · intro hcon
            by_cases hne : hdr ≠ encodeSignatureHeader payload (digitsToNat d) secret
            · rw [if_pos hne] at hcon
              exact absurd hcon (by simp [exceptIsError])
            · rw [if_neg hne] at hcon
              exact absurd hcon (by simp [exceptIsError])
          · intro hcon
            rcases hcon with hnone | ⟨d2, g2, hm2, hbad⟩
            · exact absurd hnone (by simp)
            · rw [Option.some_inj] at hm2
              have hd2 : d = d2 := congrArg Prod.fst hm2
              subst hd2
              omega
      · rw [if_neg hov]
        simp only [exceptIsError, true_iff]
        exact Or.inr ⟨d, g, rfl, Or.inl (by omega)⟩
  · intro d g hm hov hfl hne
    rw [IsValidSignature_eq_some payload secret hdr d g hm]
    unfold isValidSigSome
    rw [if_pos hov, if_neg (by omega)]
    rw [if_pos (fun heq => hne (by
      rw [matched_sig_of_eq_canonical payload secret hdr d g hm heq]))]

/-- Witness for the amended claim C5: a well-formed header with an
in-range timestamp at, and hence not below, the floor, whose signature
component `*` is not a possible HMAC signature, verifies as false with
no error. -/
theorem c5_witness :
    matchSigList (trimList "t=1609459200000,v1=*".data) =
      some ("1609459200000".data, "*".data)
    ∧ IsValidSignature "p" "t=1609459200000,v1=*" "s" = .ok false := by
  have hm : matchSigList (trimList "t=1609459200000,v1=*".data) =
      some ("1609459200000".data, "*".data) := by decide
  refine ⟨hm, ?_⟩
  refine (c5_amended_verification_errors "p" "s" _).2 "1609459200000".data "*".data hm
    (by decide) (by decide) ?_
  intro h
  have hd : ("*".data : List Char) =
      (generateHS256Signature "p" (digitsToNat "1609459200000".data) "s").data :=
    congrArg String.data h
  have hmem : '*' ∈ (generateHS256Signature "p" (digitsToNat "1609459200000".data) "s").data := by
    rw [← hd]
    decide
  have halpha := generateHS256Signature_alphabet "p" (digitsToNat "1609459200000".data) "s" '*' hmem
  exact absurd halpha (by decide)

/-- Claim C1 (code bug). `QueryResult.Unmarshal`'s own doc comment, and
the claim, say that when the server reported no result the caller's
destination is set to the zero value of its type. The code takes
`reflect.ValueOf(&dest)` — a pointer to the local `interface\x7b\x7d`
parameter — whose kind is always `Ptr`, so `reflect.Indirect` designates
the local parameter cell itself, and `Set(reflect.Zero(...))` overwrites
only that local with the nil interface. In the memory below, cell 0 is
the caller's variable `x = 5` and cell 1 is the local `dest` holding
`&x`: after the call the local is nil, the caller's variable still holds
5 (not 0), and no error is returned. `unmarshalNilSpec`, modelled from
the spec and doc comment, zeroes cell 0 instead. -/
theorem c1_unmarshal_nil_leaves_caller_untouched :
    queryResultUnmarshalNil [GoVal.vint 5, GoVal.viface (some (GoVal.vptr 0))] 1 =
      ([GoVal.vint 5, GoVal.viface none], none)
    ∧ memRead (queryResultUnmarshalNil [GoVal.vint 5, GoVal.viface (some (GoVal.vptr 0))] 1).1 0 =
        GoVal.vint 5
    ∧ unmarshalNilSpec [GoVal.vint 5, GoVal.viface (some (GoVal.vptr 0))] 1 =
        ([GoVal.vint 0, GoVal.viface (some (GoVal.vptr 0))], none)
    ∧ GoVal.vint 5 ≠ GoVal.vint 0 := by
  refine ⟨rfl, rfl, rfl, ?_⟩
  intro h
  injection h with h2
  omega

/-- Claim C2 (code bug). The claim — and the repo's own test
(`get_documents_test.go`, subtest "No document ID specified", which
requires `NoError` and a nil `Documents` slice) — say that
`GetDocuments()` with zero ids short-circuits to an empty result with no
network call and no error. The code instead returns
`*InvalidRequestError\x7bDescription: "no document ID specified"\x7d`
from `buildGET` before any network activity. -/
theorem c2_getDocuments_empty_ids_returns_error (c : ClientCfg) :
    getDocumentsDo c [] = .clientError ⟨"no document ID specified"⟩ := rfl

theorem isMethodRetriable_iff (m : String) :
    isMethodRetriable m = true ↔ (m = "GET" ∨ m = "HEAD" ∨ m = "DELETE" ∨ m = "OPTIONS") := by
  simp [isMethodRetriable]
  tauto

theorem isStatusCodeRetriable_iff (c : Nat) :
    isStatusCodeRetriable c = true ↔ (c = 503 ∨ c = 504 ∨ c = 408) := by
  simp [isStatusCodeRetriable]
  tauto

/-- Claim C3: on a non-2xx response, `Client.do` retries exactly when
the method is one of GET, HEAD, DELETE, OPTIONS and the status is one of
503, 504, 408; in every other non-2xx case the decision is to return a
`*RequestError` immediately, and the loop emits no retry events — the
trace of the run is a single send ending in the request error. -/
theorem c3_retry_iff_method_and_status_retriable (method : String) (status : Nat)
    (h : ¬ (200 ≤ status ∧ status ≤ 299)) :
    (doDecision method status = .retry ↔
      ((method = "GET" ∨ method = "HEAD" ∨ method = "DELETE" ∨ method = "OPTIONS")
        ∧ (status = 503 ∨ status = 504 ∨ status = 408)))
    ∧ (doDecision method status ≠ .retry → doDecision method status = .requestError)
    ∧ (doDecision method status = .requestError →
        ∀ (statuses : Nat → Nat) (cancelAt : Nat) (cbReg : Bool) (fuel i step : Nat),
          statuses i = status → step < cancelAt →
          clientDo method statuses cancelAt cbReg (fuel + 1) i step =
            ([.send i], .requestError status)) := by
  have hm := isMethodRetriable_iff method
  have hs := isStatusCodeRetriable_iff status
  refine ⟨?_, ?_, ?_⟩
  · unfold doDecision
    rw [if_neg h]
    by_cases hc : ¬ isMethodRetriable method = true ∨ ¬ isStatusCodeRetriable status = true
    · rw [if_pos hc]
      constructor
      · intro hcon
        exact absurd hcon (by simp)
      · intro ⟨h1, h2⟩
        rcases hc with hc | hc
        · exact absurd (hm.mpr h1) hc
        · exact absurd (hs.mpr h2) hc
    · rw [if_neg hc]
      push_neg at hc
      simp only [true_iff]
      exact ⟨hm.mp hc.1, hs.mp hc.2⟩
  · intro hne
    unfold doDecision at hne ⊢
    rw [if_neg h] at hne ⊢
    by_cases hc : ¬ isMethodRetriable method = true ∨ ¬ isStatusCodeRetriable status = true
    · rw [if_pos hc]
    · exact absurd (by rw [if_neg hc]) hne
  · intro hdec statuses cancelAt cbReg fuel i step hst hstep
    unfold clientDo
    have hhc : hcDo cancelAt step (statuses i) = (some status, none) := by
      unfold hcDo
      rw [if_neg (by omega), hst]
    rw [hhc]
    simp only []
    rw [hdec]

/-- Witness for claim C3 at the spec's own examples: POST receiving 503
and GET receiving 404 are both returned immediately as request errors,
and the POST 503 run performs a single send with no retry events. -/
theorem c3_witness :
    doDecision "POST" 503 = .requestError
    ∧ doDecision "GET" 404 = .requestError
    ∧ clientDo "POST" (fun _ => 503) 1000 true 1 0 0 = ([.send 0], .requestError 503) := by
  have h1 := c3_retry_iff_method_and_status_retriable "POST" 503 (by omega)
  have h2 := c3_retry_iff_method_and_status_retriable "GET" 404 (by omega)
  have hd1 : doDecision "POST" 503 = .requestError := h1.2.1 (by decide)
  have hd2 : doDecision "GET" 404 = .requestError := h2.2.1 (by decide)
  exact ⟨hd1, hd2, h1.2.2 hd1 (fun _ => 503) 1000 true 0 0 0 rfl (by omega)⟩

/-- Claim C9 counterexample. The claim says the JSON body of a zero-item
mutation request contains an empty mutations array. The fresh builder's
`items` slice is nil, `encoding/json` marshals a nil slice as `null`,
and so the body is `mutations: null`, which is not the empty array. The
request is otherwise a well-formed POST to `data/mutate/<dataset>` with
the default parameters. -/
theorem c9_counterexample :
    mutationBuilderDo demoClient clientMutate =
      .ok { baseURL := { scheme := "https", host := "myProject.api.sanity.io", path := "/v1" },
            path := "/data/mutate/myDataset", method := "POST",
            params := [("returnIds", "false"), ("returnDocuments", "true"),
                       ("visibility", "sync")],
            body := some (Json.jobj [("mutations", Json.null)]),
            headers := [("Accept", "application/json"), ("accept", "application/json")],
            rerr := none }
    ∧ Json.null ≠ Json.jarr [] := by
  refine ⟨rfl, ?_⟩
  intro h
  exact Json.noConfusion h

/-- Claim C9, amended: a mutation builder with zero items still sends a
valid POST request to `data/mutate/<dataset>`, but its JSON body carries
`mutations: null` (the marshaling of the nil Go slice), not an empty
array. -/
theorem c9_amended_empty_mutations_null (c : ClientCfg) :
    ∃ req, mutationBuilderDo c clientMutate = .ok req
      ∧ req.method = "POST"
      ∧ req.body = some (Json.jobj [("mutations", Json.null)])
      ∧ jsonField (Json.jobj [("mutations", Json.null)]) "mutations" = some Json.null :=
  ⟨_, rfl, rfl, rfl, rfl⟩

/-- Claim C10: whenever the retry loop invokes `OnErrorWillRetry`, the
error value passed is nil. On the retry path the `err` from `c.hc.Do`
must be nil — a non-nil transport error returns from the loop first —
and no error describing the retriable status is constructed, so every
callback invocation in every trace carries `none`. -/
theorem c10_callback_error_always_nil (method : String) (statuses : Nat → Nat)
    (cancelAt : Nat) (cbReg : Bool) (fuel i step : Nat) :
    (callbackArgs (clientDo method statuses cancelAt cbReg fuel i step).1).all
      Option.isNone = true := by
  induction fuel generalizing i step with
  | zero => rfl
  | succ fuel ih =>
    unfold clientDo
    by_cases hcs : cancelAt ≤ step
    · simp [hcDo, hcs, callbackArgs]
    · simp only [hcDo, hcs, if_false]
      rcases hdec : doDecision method (statuses i) with _ | _ | _
      · simp [hdec, callbackArgs]
      · simp [hdec, callbackArgs]
      · simp only [hdec]
        cases cbReg with
        | false => simp [callbackArgs, List.all_append] at ih ⊢; exact ih (i + 1) (step + 2)
        | true => simp [callbackArgs, List.all_append] at ih ⊢; exact ih (i + 1) (step + 3)

/-- Claim C8 counterexample. With the context canceled from global step
1 — immediately after the first send returns its retriable 503 — the
claim says the loop exits promptly with no further sleep or retry. The
code checks the context only through the request handed to the
transport; `time.Sleep(bckoff.Duration())` is unconditional, so the
trace still contains the backoff sleep (and one more send, which then
fails with the transport's cancellation error) after the cancellation
point: a sleep event occurs in the part of the trace after step 1. -/
theorem c8_counterexample :
    clientDo "GET" (fun _ => 503) 1 true 2 0 0 =
      ([.send 0, .callbackRetry none, .sleepBackoff, .send 1], .transportError)
    ∧ DoEvent.sleepBackoff ∈ (clientDo "GET" (fun _ => 503) 1 true 2 0 0).1.drop 1 := by
  refine ⟨by decide, by decide⟩

/-- Claim C8, amended: the cancellation signal is honored at each send —
the request carries the context, and once the context is canceled the
next send exits the loop immediately with a transport error and no
further events — but it is not checked before the backoff sleep: a retry
iteration unconditionally performs the callback and the sleep, however
the cancellation step relates to the current step, so a cancellation
firing mid-retry takes effect only at the next send, after the full
backoff sleep. -/
theorem c8_amended_cancellation (statuses : Nat → Nat) (cancelAt fuel i step : Nat) :
    (cancelAt ≤ step →
      clientDo "GET" statuses cancelAt true (fuel + 1) i step = ([.send i], .transportError))
    ∧ (step < cancelAt → statuses i = 503 →
      clientDo "GET" statuses cancelAt true (fuel + 1) i step =
        (DoEvent.send i :: DoEvent.callbackRetry none :: DoEvent.sleepBackoff ::
          (clientDo "GET" statuses cancelAt true fuel (i + 1) (step + 3)).1,
         (clientDo "GET" statuses cancelAt true fuel (i + 1) (step + 3)).2)) := by
  constructor
  · intro hcs
    unfold clientDo
    simp [hcDo, hcs]
  · intro hcs hst
    have hhc : hcDo cancelAt step (statuses i) = (some 503, none) := by
      unfold hcDo
      rw [if_neg (by omega), hst]
    conv_lhs => unfold clientDo
    simp [hhc, doDecision, isMethodRetriable, isStatusCodeRetriable]

/-- Witness for the amended claim C8: with the context canceled from the
start, a send exits immediately; with the context alive, a retry
iteration on a 503 emits the callback and the unconditional backoff
sleep before looping. -/
theorem c8_witness :
    clientDo "GET" (fun _ => 503) 0 true 3 5 7 = ([.send 5], .transportError)
    ∧ clientDo "GET" (fun _ => 503) 9 true 1 0 0 =
        (DoEvent.send 0 :: DoEvent.callbackRetry none :: DoEvent.sleepBackoff ::
          (clientDo "GET" (fun _ => 503) 9 true 0 1 3).1,
         (clientDo "GET" (fun _ => 503) 9 true 0 1 3).2) :=
  ⟨(c8_amended_cancellation (fun _ => 503) 0 2 5 7).1 (by omega),
   (c8_amended_cancellation (fun _ => 503) 9 0 0 0).2 (by omega) rfl⟩

/-- Claim C4 counterexample. The claim says `appendPath` never produces
doubled separators and that the result equals the one for the same
sequence with empty strings and leading/trailing separators removed. For
the segments `["a/", "/b"]` the code inserts no separator (the path ends
with one and the next segment begins with one) but keeps both supplied
slashes, yielding `/a//b` — a doubled separator — whereas the cleaned
sequence `["a", "b"]` yields `/a/b`. -/
theorem c4_counterexample :
    appendPathFold "" ["a/", "/b"] = "/a//b"
    ∧ hasDoubleSlashL (appendPathFold "" ["a/", "/b"]).data = true
    ∧ appendPathFold "" ["a", "b"] = "/a/b"
    ∧ ("/a//b" : String) ≠ "/a/b" := by
  refine ⟨by decide, by decide, by decide, by decide⟩

theorem appendPathStepL_nil (p : List Char) : appendPathStepL p [] = p := by
  simp [appendPathStepL]

/-- The fold of `AppendPath` over slash-free segments, starting from a
path that does not end in a separator, appends `/<segment>` for each
non-empty segment. -/
theorem appendPathFoldL_join (elems : List (List Char)) :
    ∀ p : List Char, (∀ e ∈ elems, ∀ c ∈ e, c ≠ '/') → p.getLast? ≠ some '/' →
    elems.foldl appendPathStepL p =
      p ++ ((elems.filter (fun e => !e.isEmpty)).map (fun e => '/' :: e)).flatten := by
  induction elems with
  | nil => intro p _ _; simp
  | cons e rest ih =>
    intro p hsf hp
    cases e with
    | nil =>
      simp only [List.foldl_cons, appendPathStepL_nil, List.filter_cons]
      norm_num
      exact ih p (fun e2 he2 => hsf e2 (List.mem_cons_of_mem _ he2)) hp
    | cons c e2 =>
      have hc : c ≠ '/' := hsf (c :: e2) (by simp) c (by simp)
      have hstep : appendPathStepL p (c :: e2) = p ++ '/' :: c :: e2 := by
        unfold appendPathStepL
        rw [if_pos ⟨hp, by simp, by simp [hc]⟩]
        simp
      have hlast : (p ++ '/' :: c :: e2).getLast? ≠ some '/' := by
        rw [getLast?_append_right (by simp), List.getLast?_cons_cons]
        intro hcon
        have hmem : (c :: e2).getLast (by simp) ∈ c :: e2 := List.getLast_mem _
        rw [List.getLast?_eq_getLast_of_ne_nil (by simp)] at hcon
        rw [Option.some_inj.mp hcon] at hmem
        exact hsf (c :: e2) (by simp) '/' hmem rfl
      simp only [List.foldl_cons, hstep, List.filter_cons]
      rw [ih (p ++ '/' :: c :: e2) (fun e3 he3 => hsf e3 (List.mem_cons_of_mem _ he3)) hlast]
      simp [List.append_assoc]

/-- The character list of the string-level fold is the list-level fold
over the segment character lists. -/
theorem appendPathFold_data (elems : List String) :
    ∀ p : String, (appendPathFold p elems).data =
      (elems.map String.data).foldl appendPathStepL p.data := by
  induction elems with
  | nil => intro p; rfl
  | cons e rest ih =>
    intro p
    show (appendPathFold (appendPathStep p e) rest).data = _
    rw [ih (appendPathStep p e)]
    rfl

theorem data_ne_nil_of_ne_empty {e : String} (he : e ≠ "") : e.data ≠ [] := by
  intro hd
  apply he
  exact String.ext hd

/-- Filtering out the empty segments commutes with taking character
lists. -/
theorem filter_map_data (elems : List String) :
    (elems.filter (fun e => e ≠ "")).map String.data =
      (elems.map String.data).filter (fun l => !l.isEmpty) := by
  induction elems with
  | nil => rfl
  | cons e rest ih =>
    by_cases he : e = ""
    · subst he
      simpa using ih
    · simp [he, isEmpty_false_of_ne_nil (data_ne_nil_of_ne_empty he)]
      simpa using ih

/-- Claim C4, amended: for segments that contain no separator
characters, `appendPath` joins the non-empty segments with exactly one
separator each — the result is the concatenation of `/<segment>` over
the non-empty segments, which also equals the result for the sequence
with the empty segments removed — and the spec's example
`["", "foo", "/", "bar", ""]` still yields `/foo/bar`. Segments that
themselves carry separators are appended with their slashes kept, so a
trailing slash followed by a leading slash doubles (see the
counterexample). -/
theorem c4_amended_appendPath (elems : List String)
    (h : ∀ e ∈ elems, ∀ c ∈ e.data, c ≠ '/') :
    (appendPathFold "" elems).data =
      (((elems.map String.data).filter (fun l => !l.isEmpty)).map (fun l => '/' :: l)).flatten
    ∧ appendPathFold "" elems = appendPathFold "" (elems.filter (fun e => e ≠ ""))
    ∧ appendPathFold "" ["", "foo", "/", "bar", ""] = "/foo/bar" := by
  have hsf : ∀ l ∈ elems.map String.data, ∀ c ∈ l, c ≠ '/' := by
    intro l hl c hc
    obtain ⟨e, he, hed⟩ := List.mem_map.mp hl
    exact h e he c (by rw [hed]; exact hc)
  have h1 : (appendPathFold "" elems).data =
      (((elems.map String.data).filter (fun l => !l.isEmpty)).map (fun l => '/' :: l)).flatten := by
    rw [appendPathFold_data]
    rw [appendPathFoldL_join (elems.map String.data) "".data hsf (by decide)]
    rfl
  refine ⟨h1, ?_, by decide⟩
  apply String.ext
  rw [h1, appendPathFold_data, filter_map_data]
  rw [appendPathFoldL_join ((elems.map String.data).filter (fun l => !l.isEmpty)) "".data
    (fun l hl => hsf l (List.mem_of_mem_filter hl)) (by decide)]
  rw [List.filter_filter]
  simp

/-- Witness for the amended claim C4 at the slash-free sequence
`["", "foo", "bar", ""]`. -/
theorem c4_witness :
    (appendPathFold "" ["", "foo", "bar", ""]).data = "/foo/bar".data
    ∧ appendPathFold "" ["", "foo", "bar", ""] =
        appendPathFold "" (["", "foo", "bar", ""].filter (fun e => e ≠ "")) := by
  have h := c4_amended_appendPath ["", "foo", "bar", ""] (by decide)
  exact ⟨by rw [h.1]; decide, h.2.1⟩

theorem foldl_param_method (ps : List (String × String)) :
    ∀ r : Request,
      (ps.foldl (fun r p => r.param (strCat "$" p.1) (.ps p.2)) r).method = r.method := by
  induction ps with
  | nil => intro r; rfl
  | cons p rest ih =>
    intro r
    rw [List.foldl_cons, ih]
    rfl

theorem queryBuildGET_method (c : ClientCfg) (q : String) (ps : List (String × String)) :
    (queryBuildGET c q ps).method = "GET" := by
  unfold queryBuildGET
  rw [foldl_param_method]
  show (clientNewRequest c).method = "GET"
  unfold clientNewRequest
  split <;> rfl

/-- Claim C7: the query execution sends the GET request exactly when its
encoded URL is at most `maxGETRequestURLLength` bytes; beyond that it
sends the rebuilt POST request whose JSON body carries the query and the
parameters; and in both cases the decoded response is turned into the
surfaced result by the same `mkQueryResult`, so the result has the same
type and construction either way. -/
theorem c7_query_get_post_switch (c : ClientCfg) (query : String)
    (params : List (String × String)) :
    (goLen (queryBuildGET c query params).encodeURL ≤ maxGETRequestURLLength →
      queryChosenRequest c query params = queryBuildGET c query params
      ∧ (queryChosenRequest c query params).method = "GET")
    ∧ (maxGETRequestURLLength < goLen (queryBuildGET c query params).encodeURL →
      queryChosenRequest c query params = queryBuildPOST c query params
      ∧ (queryChosenRequest c query params).method = "POST"
      ∧ (queryChosenRequest c query params).body = some (queryPostBody query params))
    ∧ ∀ respond, queryDo c query params respond =
        mkQueryResult (respond (queryChosenRequest c query params)) := by
  refine ⟨?_, ?_, fun respond => rfl⟩
  · intro hle
    unfold queryChosenRequest
    rw [if_neg (by omega)]
    exact ⟨rfl, queryBuildGET_method c query params⟩
  · intro hgt
    unfold queryChosenRequest
    rw [if_pos hgt]
    exact ⟨rfl, rfl, rfl⟩

set_option maxRecDepth 100000 in
/-- Witness for claim C7: a short query is sent as GET; a query long
enough to push the encoded URL past 1024 bytes is sent as POST. -/
theorem c7_witness :
    goLen (queryBuildGET demoClient "*" []).encodeURL ≤ maxGETRequestURLLength
    ∧ (queryChosenRequest demoClient "*" []).method = "GET"
    ∧ maxGETRequestURLLength <
        goLen (queryBuildGET demoClient (String.mk (List.replicate 1200 'a')) []).encodeURL
    ∧ (queryChosenRequest demoClient (String.mk (List.replicate 1200 'a')) []).method =
        "POST" := by
  have h1 := (c7_query_get_post_switch demoClient "*" []).1 (by decide)
  have h2 := (c7_query_get_post_switch demoClient
    (String.mk (List.replicate 1200 'a')) []).2.1 (by decide)
  exact ⟨by decide, h1.2, by decide, h2.2.1⟩

/-- The embedding reproduces the repository's own `AppendPath` test
vectors (requests_test.go): empty segments and lone separators collapse,
and the URL renders without a scheme when the base URL has none. -/
theorem appendPath_test_vectors :
    ((requestsNew ⟨"", "localhost", ""⟩).appendPath [""]).encodeURL = "//localhost"
    ∧ ((requestsNew ⟨"", "localhost", ""⟩).appendPath ["foo"]).encodeURL = "//localhost/foo"
    ∧ ((requestsNew ⟨"", "localhost", ""⟩).appendPath ["foo", "bar"]).encodeURL
        = "//localhost/foo/bar"
    ∧ ((requestsNew ⟨"", "localhost", ""⟩).appendPath ["foo", "", "bar"]).encodeURL
        = "//localhost/foo/bar"
    ∧ ((requestsNew ⟨"", "localhost", ""⟩).appendPath ["", "foo", "bar"]).encodeURL
        = "//localhost/foo/bar"
    ∧ ((requestsNew ⟨"", "localhost", ""⟩).appendPath ["foo", "bar", ""]).encodeURL
        = "//localhost/foo/bar"
    ∧ ((requestsNew ⟨"", "localhost", ""⟩).appendPath ["foo", "/", "bar"]).encodeURL
        = "//localhost/foo/bar"
    ∧ ((requestsNew ⟨"", "localhost", ""⟩).appendPath ["/", "foo", "bar"]).encodeURL
        = "//localhost/foo/bar" := by
  refine ⟨?_, ?_, ?_, ?_, ?_, ?_, ?_, ?_⟩ <;> decide

/-- A retry iteration emits exactly one `OnErrorWillRetry` invocation
(its argument is the nil error) followed by the backoff sleep: traces
with callback events are reachable. -/
theorem clientDo_retry_trace_example :
    clientDo "GET" (fun _ => 503) 1000 true 1 0 0 =
      ([.send 0, .callbackRetry none, .sleepBackoff], .stillLooping) := by
  decide

/-- The get-documents builder joins the ids into one path segment, as in
the repository's two-document test. -/
theorem getDocuments_two_ids_url :
    getDocumentsDo demoClient ["doc1", "doc2"] =
      .network ((clientNewAPIRequest demoClient).appendPath
        ["data/doc", "myDataset", "doc1,doc2"])
    ∧ ((clientNewAPIRequest demoClient).appendPath
        ["data/doc", "myDataset", "doc1,doc2"]).encodeURL =
      "https://myProject.api.sanity.io/v1/data/doc/myDataset/doc1,doc2" := by
  refine ⟨rfl, by decide⟩

set_option maxRecDepth 100000 in
/-- A single id long enough to push the URL past the GET ceiling is a
client-side validation error, before any network call (the repository's
"GET URL length exceeded" test). -/
theorem getDocuments_url_ceiling :
    getDocumentsDo demoClient [String.mk (List.replicate 1024 'x')] =
      .clientError ⟨"max URL length exceeded"⟩ := by
  rfl
